import Mathlib

/-!
Formal model of the COOP (Crystal Orbital Overlap Population) workflow in
nac/workflows/workflow_coop.py.

Numbers that the program keeps in floating point are modelled as exact
rationals; numpy arrays are modelled as lists (1-D), lists of lists (2-D
with concrete entries) or index functions (the full overlap and
coefficient matrices, whose entries come from external collaborators).
Python exceptions are modelled by the Except monad with an explicit error
kind.  The atom list produced by the external geometry parser is modelled,
following the data model of the specification, as the ordered list of atom
label strings; the Python membership test on strings is the substring
test.
-/

/-- Error kinds used to model Python exceptions.  valueError and
indexError model the exceptions numpy and list indexing actually raise;
configurationError and selectionError model the error kinds named by the
specification (the code itself defines no such classes). -/
inductive CoopError where
  | valueError
  | indexError
  | configurationError
  | selectionError
  deriving DecidableEq, Repr

deriving instance DecidableEq for Except

/-- Default string used when reading past the end of the atom list. -/
def noLabel : String := ""

/-- Python str.lower, modelled on the character list of the string. -/
def lowerChars (l : List Char) : List Char :=
  l.map Char.toLower

/-- Python substring membership on character lists: needle occurs
contiguously inside haystack (the empty needle always does). -/
def isSubstrOf (needle haystack : List Char) : Bool :=
  (List.range (haystack.length + 1)).any (fun i => needle.isPrefixOf (haystack.drop i))

/-- The matching test of workflow_coop.py line 116: the element label is
lowercased and then tested for occurrence inside the atom label, which is
NOT lowercased. -/
def elem_match (element s : String) : Bool :=
  isSubstrOf (lowerChars element.data) s.data

/-- Fully case-insensitive variant, following the specification's words
(both sides case-folded); kept separate from elem_match so the two can be
compared. -/
def elem_match_ci (element s : String) : Bool :=
  isSubstrOf (lowerChars element.data) (lowerChars s.data)

/-- Lines 116-117: the indices i, in atom-list order, whose atom label
passes the matching test. -/
def element_index (mol : List String) (element : String) : List Nat :=
  (List.range mol.length).filter (fun i => elem_match element (mol.getD i noLabel))

/-- The index list the specification describes (case-insensitive on both
sides); for comparison with element_index. -/
def element_index_ci (mol : List String) (element : String) : List Nat :=
  (List.range mol.length).filter (fun i => elem_match_ci element (mol.getD i noLabel))

/-- Running prefix sums, as np.cumsum produces them:
cumsum [a, b, c] = [a, a + b, a + b + c]. -/
def cumsum : List Nat → List Nat
  | [] => []
  | x :: xs => x :: (cumsum xs).map (fun y => x + y)

/-- Lines 121-122: atom_indices = np.zeros(len(mol) + 1);
atom_indices[1:] = np.cumsum(sphericals).  The slice assignment requires
the cumulative-sum vector to fill the slice exactly, hence the length
check. -/
def atom_indices (mol : List String) (sphericals : List Nat) :
    Except CoopError (List Nat) :=
  if sphericals.length = mol.length then Except.ok (0 :: cumsum sphericals)
  else Except.error CoopError.valueError

/-- Lines 124-125 / 129-130: one row per matched atom i, holding
np.arange(sphericals[i]) + atom_indices[i]. -/
def orbital_ranges (sphericals offs : List Nat) (matched : List Nat) :
    List (List Nat) :=
  matched.map (fun i =>
    (List.range (sphericals.getD i 0)).map (fun j => offs.getD i 0 + j))

/-- np.reshape of a nested Python list to a flat length-n vector: numpy
first materialises the nested list as an array, which fails on ragged
rows, and then reshaping succeeds exactly when the element count matches
n.  On success the result is the row-major flattening. -/
def np_reshape_flat (rows : List (List Nat)) (n : Nat) :
    Except CoopError (List Nat) :=
  if rows.all (fun r => r.length == (rows.headD []).length) then
    if rows.flatten.length == n then Except.ok rows.flatten
    else Except.error CoopError.valueError
  else Except.error CoopError.valueError

/-- Lines 124-127 (and identically 129-132): build the per-atom orbital
ranges of one element and reshape them to a flat vector of length
len(matched) * sphericals[matched[0]].  When no atom matches, evaluating
matched[0] raises IndexError before np.reshape is called. -/
def el_orbital_ind (mol : List String) (sphericals offs : List Nat)
    (element : String) : Except CoopError (List Nat) :=
  match element_index mol element with
  | [] => Except.error CoopError.indexError
  | i0 :: rest =>
      np_reshape_flat (orbital_ranges sphericals offs (i0 :: rest))
        ((i0 :: rest).length * sphericals.getD i0 0)

/-- Lines 136-139: overlap_reduced = overlap[idx1, :][:, idx2].  The full
overlap matrix is an nAO x nAO array, so fancy indexing checks every index
against nAO; row selection runs (and checks) first, column selection
second. -/
def overlap_reduced_of (S : Nat → Nat → ℚ) (nAO : Nat)
    (idx1 idx2 : List Nat) : Except CoopError (List (List ℚ)) :=
  if idx1.all (fun i => decide (i < nAO)) then
    if idx2.all (fun j => decide (j < nAO)) then
      Except.ok (idx1.map (fun i => idx2.map (fun j => S i j)))
    else Except.error CoopError.indexError
  else Except.error CoopError.indexError

/-- Gathering a coefficient column at a list of orbital indices
(atomic_orbitals[el_orbital_ind] inside coop_func). -/
def gather (col : Nat → ℚ) (idx : List Nat) : List ℚ :=
  idx.map col

/-- np.tensordot(c1, c2, 0): the outer product, entry (a, b) = c1[a] * c2[b]. -/
def tensordot0 (c1 c2 : List ℚ) : List (List ℚ) :=
  c1.map (fun x => c2.map (fun y => x * y))

/-- Elementwise product of two matrices of matching shape. -/
def elemwise_mul (m1 m2 : List (List ℚ)) : List (List ℚ) :=
  List.zipWith (fun r1 r2 => List.zipWith (fun a b => a * b) r1 r2) m1 m2

/-- np.sum over a 2-D array: the sum of all entries. -/
def np_sum_mat (m : List (List ℚ)) : ℚ :=
  (m.map List.sum).sum

/-- Lines 155-166: the per-column kernel of compute_coop. -/
def coop_func (col : Nat → ℚ) (overlap_reduced : List (List ℚ))
    (idx1 idx2 : List Nat) : ℚ :=
  np_sum_mat
    (elemwise_mul (tensordot0 (gather col idx1) (gather col idx2)) overlap_reduced)

/-- Lines 168-177: np.apply_along_axis(coop_func, 0, atomic_orbitals, ...),
applying the kernel to every column k of the coefficient matrix, in column
order.  The coefficient matrix is M : row index (atomic orbital) -> column
index (energy level) -> value, with nLevels columns. -/
def compute_coop (M : Nat → Nat → ℚ) (overlap_reduced : List (List ℚ))
    (idx1 idx2 : List Nat) (nLevels : Nat) : List ℚ :=
  (List.range nLevels).map (fun k => coop_func (fun p => M p k) overlap_reduced idx1 idx2)

/-- Mathematical transpose of a rows-as-lists matrix with ncols columns. -/
def transposeMat (m : List (List ℚ)) (ncols : Nat) : List (List ℚ) :=
  (List.range ncols).map (fun b => m.map (fun r => r.getD b 0))

/-- Hartree-to-eV conversion factor.  Modelled from the spec: the code
reads physical_constants of the external scipy library at the key naming
the Hartree energy in eV; the CODATA value is 27.211386245988 eV. -/
def h2ev : ℚ := 27.211386245988

/-- Line 92-93 of get_eigenvalues_coefficients: energies = energies * h2ev,
a numpy scalar multiplication applied to every element. -/
def convert_energies (energies : List ℚ) : List ℚ :=
  energies.map (fun e => e * h2ev)

/-- np.zeros((n, 2)) viewed as n rows of two rationals. -/
def np_zeros_2col (n : Nat) : List (ℚ × ℚ) :=
  List.replicate n (0, 0)

/-- result_coop[:, 0] = v: numpy slice assignment into column 0, which
requires v to have the row count of the table (or to be a length-1 vector,
which broadcasts). -/
def set_col0 (m : List (ℚ × ℚ)) (v : List ℚ) : Except CoopError (List (ℚ × ℚ)) :=
  if v.length = m.length then
    Except.ok (List.zipWith (fun row x => (x, row.2)) m v)
  else if v.length = 1 then Except.ok (m.map (fun row => (v.getD 0 0, row.2)))
  else Except.error CoopError.valueError

/-- result_coop[:, 1] = v: slice assignment into column 1. -/
def set_col1 (m : List (ℚ × ℚ)) (v : List ℚ) : Except CoopError (List (ℚ × ℚ)) :=
  if v.length = m.length then
    Except.ok (List.zipWith (fun row x => (row.1, x)) m v)
  else if v.length = 1 then Except.ok (m.map (fun row => (row.1, v.getD 0 0)))
  else Except.error CoopError.valueError

/-- Lines 180-186: print_coop builds np.zeros((len(coop), 2)), writes the
energies into column 0 and the COOP values into column 1, and returns the
table (the np.savetxt call is an external file-system effect outside the
model). -/
def print_coop (energies coop : List ℚ) : Except CoopError (List (ℚ × ℚ)) :=
  (set_col0 (np_zeros_2col coop.length) energies).bind (fun m => set_col1 m coop)

/-- Lines 97-143, the part after the two external calls (overlap matrix
construction and spherical-function counting): indices of both elements,
offset table, flat orbital-index vectors and the reduced overlap matrix. -/
def compute_overlap_and_atomic_orbitals (S : Nat → Nat → ℚ) (nAO : Nat)
    (mol : List String) (sphericals : List Nat) (element_1 element_2 : String) :
    Except CoopError (List Nat × List Nat × List (List ℚ)) := do
  let offs ← atom_indices mol sphericals
  let o1 ← el_orbital_ind mol sphericals offs element_1
  let o2 ← el_orbital_ind mol sphericals offs element_2
  let red ← overlap_reduced_of S nAO o1 o2
  pure (o1, o2, red)

/-! ### General list helpers -/

theorem getD_map_eq {α β : Type} (f : α → β) (l : List α) (i : Nat) (d : β) (d' : α)
    (h : i < l.length) : (l.map f).getD i d = f (l.getD i d') := by
  rw [List.getD_eq_getElem?_getD, List.getD_eq_getElem?_getD, List.getElem?_map,
    List.getElem?_eq_getElem h]
  rfl

theorem getD_range_eq (n i : Nat) (h : i < n) : (List.range n).getD i 0 = i := by
  rw [List.getD_eq_getElem?_getD, List.getElem?_eq_getElem (by simpa using h)]
  simp

theorem sum_take_le (l : List Nat) (i j : Nat) (hij : i ≤ j) :
    (l.take i).sum ≤ (l.take j).sum := by
  have h1 : l.take i = (l.take j).take i := by
    rw [List.take_take, Nat.min_eq_left hij]
  calc (l.take i).sum = ((l.take j).take i).sum := by rw [h1]
    _ ≤ ((l.take j).take i).sum + ((l.take j).drop i).sum := Nat.le_add_right _ _
    _ = (l.take j).sum := by rw [← List.sum_append, List.take_append_drop]

theorem sum_take_succ_eq (l : List Nat) (i : Nat) (h : i < l.length) :
    (l.take (i + 1)).sum = (l.take i).sum + l.getD i 0 := by
  rw [List.take_succ, List.sum_append, List.getD_eq_getElem?_getD,
    List.getElem?_eq_getElem h]
  simp

/-! ### Cumulative sums and the offset table -/

theorem cumsum_length (l : List Nat) : (cumsum l).length = l.length := by
  induction l with
  | nil => rfl
  | cons x xs ih => simp [cumsum, ih]

theorem cumsum_getD (l : List Nat) (i : Nat) (h : i < l.length) :
    (cumsum l).getD i 0 = (l.take (i + 1)).sum := by
  induction l generalizing i with
  | nil => simp at h
  | cons x xs ih =>
    cases i with
    | zero => simp [cumsum]
    | succ i =>
      have hx : i < xs.length := by simpa using h
      have hcx : i < (cumsum xs).length := by rw [cumsum_length]; exact hx
      have : (cumsum (x :: xs)).getD (i + 1) 0
          = ((cumsum xs).map (fun y => x + y)).getD i 0 := rfl
      rw [this, getD_map_eq (fun y => x + y) (cumsum xs) i 0 0 hcx, ih i hx,
        List.take_succ_cons, List.sum_cons]

theorem offsets_getD (l : List Nat) (i : Nat) (h : i ≤ l.length) :
    (0 :: cumsum l).getD i 0 = (l.take i).sum := by
  cases i with
  | zero => simp
  | succ i =>
    have hi : i < l.length := h
    have : (0 :: cumsum l).getD (i + 1) 0 = (cumsum l).getD i 0 := rfl
    rw [this, cumsum_getD l i hi]

/-- C6: for an atom list and a sphericals sequence of the same length, the
offset table is built successfully; it has length one more than the atom
list, starts at 0, is non-decreasing, increases at step i by exactly
sphericals[i] (so offset[i+1] - offset[i] = sphericals[i]), and its last
entry is the total number of atomic orbitals, the sum of all sphericals. -/
theorem C6_offset_table (mol : List String) (sph : List Nat)
    (h : sph.length = mol.length) :
    ∃ offs, atom_indices mol sph = Except.ok offs ∧
      offs.length = mol.length + 1 ∧
      offs.getD 0 0 = 0 ∧
      (∀ i j, i ≤ j → j < offs.length → offs.getD i 0 ≤ offs.getD j 0) ∧
      (∀ i, i < sph.length →
        offs.getD (i + 1) 0 = offs.getD i 0 + sph.getD i 0 ∧
        offs.getD (i + 1) 0 - offs.getD i 0 = sph.getD i 0) ∧
      offs.getD mol.length 0 = sph.sum := by
  refine ⟨0 :: cumsum sph, ?_, ?_, ?_, ?_, ?_, ?_⟩
  · simp [atom_indices, h]
  · simp [cumsum_length, h]
  · rfl
  · intro i j hij hj
    have hj' : j ≤ sph.length := by
      simpa [cumsum_length] using Nat.lt_succ_iff.mp hj
    rw [offsets_getD sph i (le_trans hij hj'), offsets_getD sph j hj']
    exact sum_take_le sph i j hij
  · intro i hi
    have h1 : (0 :: cumsum sph).getD (i + 1) 0 = (0 :: cumsum sph).getD i 0 + sph.getD i 0 := by
      rw [offsets_getD sph (i + 1) hi, offsets_getD sph i (le_of_lt hi)]
      exact sum_take_succ_eq sph i hi
    exact ⟨h1, by rw [h1]; exact Nat.add_sub_cancel_left _ _⟩
  · rw [← h, offsets_getD sph sph.length (le_refl _), List.take_length]

/-- Witness for C6 at a concrete two-atom system. -/
theorem C6_offset_table_witness :
    ∃ offs, atom_indices ["a", "b"] [2, 3] = Except.ok offs ∧
      offs.length = (["a", "b"] : List String).length + 1 ∧
      offs.getD 0 0 = 0 ∧
      (∀ i j, i ≤ j → j < offs.length → offs.getD i 0 ≤ offs.getD j 0) ∧
      (∀ i, i < ([2, 3] : List Nat).length →
        offs.getD (i + 1) 0 = offs.getD i 0 + ([2, 3] : List Nat).getD i 0 ∧
        offs.getD (i + 1) 0 - offs.getD i 0 = ([2, 3] : List Nat).getD i 0) ∧
      offs.getD (["a", "b"] : List String).length 0 = ([2, 3] : List Nat).sum :=
  C6_offset_table ["a", "b"] [2, 3] (by decide)

/-! ### Overlap reduction -/

/-- C2: for in-bounds index sequences the reduced overlap matrix is built
successfully, has shape exactly (len(idx1), len(idx2)), and its entry at
(a, b) is the full-matrix entry at (idx1[a], idx2[b]); rows follow idx1's
order and columns idx2's order. -/
theorem C2_overlap_reduction (S : Nat → Nat → ℚ) (nAO : Nat) (idx1 idx2 : List Nat)
    (h1 : ∀ i ∈ idx1, i < nAO) (h2 : ∀ j ∈ idx2, j < nAO) :
    ∃ m, overlap_reduced_of S nAO idx1 idx2 = Except.ok m ∧
      m.length = idx1.length ∧
      (∀ r ∈ m, r.length = idx2.length) ∧
      ∀ a b, a < idx1.length → b < idx2.length →
        (m.getD a []).getD b 0 = S (idx1.getD a 0) (idx2.getD b 0) := by
  have hb1 : idx1.all (fun i => decide (i < nAO)) = true := by
    rw [List.all_eq_true]; intro i hi; simpa using h1 i hi
  have hb2 : idx2.all (fun j => decide (j < nAO)) = true := by
    rw [List.all_eq_true]; intro j hj; simpa using h2 j hj
  refine ⟨idx1.map (fun i => idx2.map (fun j => S i j)), ?_, ?_, ?_, ?_⟩
  · simp [overlap_reduced_of, hb1, hb2]
  · simp
  · intro r hr
    rcases List.mem_map.mp hr with ⟨i, _, rfl⟩
    simp
  · intro a b ha hb
    rw [getD_map_eq (fun i => idx2.map (fun j => S i j)) idx1 a [] 0 ha,
      getD_map_eq (fun j => S (idx1.getD a 0) j) idx2 b 0 0 hb]

/-- Witness for C2 on a 3 x 3 overlap matrix. -/
theorem C2_overlap_reduction_witness :
    ∃ m, overlap_reduced_of (fun i j => ((i * 10 + j : Nat) : ℚ)) 3 [2, 0] [1] = Except.ok m ∧
      m.length = ([2, 0] : List Nat).length ∧
      (∀ r ∈ m, r.length = ([1] : List Nat).length) ∧
      ∀ a b, a < ([2, 0] : List Nat).length → b < ([1] : List Nat).length →
        (m.getD a []).getD b 0
          = (fun i j => ((i * 10 + j : Nat) : ℚ)) (([2, 0] : List Nat).getD a 0)
              (([1] : List Nat).getD b 0) :=
  C2_overlap_reduction (fun i j => ((i * 10 + j : Nat) : ℚ)) 3 [2, 0] [1]
    (by decide) (by decide)

/-! ### The element selector and orbital-index construction -/

theorem sum_const_nat (l : List Nat) (s : Nat) (h : ∀ x ∈ l, x = s) :
    l.sum = l.length * s := by
  induction l with
  | nil => simp
  | cons x xs ih =>
    have hx := h x (List.mem_cons_self x xs)
    have ih' := ih (fun y hy => h y (List.mem_cons_of_mem x hy))
    simp [hx, ih', Nat.succ_mul, Nat.add_comm]

theorem np_reshape_flat_ok (rows : List (List Nat)) (n : Nat) (l : List Nat)
    (h : np_reshape_flat rows n = Except.ok l) : l = rows.flatten := by
  unfold np_reshape_flat at h
  split at h
  · split at h
    · exact (Except.ok.inj h).symm
    · exact absurd h (by simp)
  · exact absurd h (by simp)

theorem np_reshape_flat_ok_of (rows : List (List Nat)) (s : Nat)
    (hne : rows ≠ []) (hlen : ∀ r ∈ rows, r.length = s) :
    np_reshape_flat rows (rows.length * s) = Except.ok rows.flatten := by
  have hhead : (rows.headD []).length = s := by
    cases rows with
    | nil => exact absurd rfl hne
    | cons r rs => exact hlen r (List.mem_cons_self _ _)
  have hall : rows.all (fun r => r.length == (rows.headD []).length) = true := by
    rw [List.all_eq_true]
    intro r hr
    rw [beq_iff_eq, hhead, hlen r hr]
  have hflat : rows.flatten.length = rows.length * s := by
    rw [List.length_flatten]
    have := sum_const_nat (rows.map List.length) s (by
      intro x hx
      rcases List.mem_map.mp hx with ⟨r, hr, rfl⟩
      exact hlen r hr)
    simpa using this
  unfold np_reshape_flat
  split
  · split
    · rfl
    · rename_i hc
      rw [beq_iff_eq] at hc
      exact absurd hflat hc
  · rename_i hc
    exact absurd hall hc

theorem el_orbital_ind_ok_flatten (mol : List String) (sph offs : List Nat)
    (el : String) (flat : List Nat)
    (h : el_orbital_ind mol sph offs el = Except.ok flat) :
    flat = (orbital_ranges sph offs (element_index mol el)).flatten := by
  unfold el_orbital_ind at h
  split at h
  · exact absurd h (by simp)
  · rename_i i0 rest heq
    rw [heq]
    exact np_reshape_flat_ok _ _ _ h

theorem el_orbital_ind_eq_flatten (mol : List String) (sph offs : List Nat)
    (el : String) (hne : element_index mol el ≠ [])
    (huni : ∀ j ∈ element_index mol el, ∀ j2 ∈ element_index mol el,
      sph.getD j 0 = sph.getD j2 0) :
    el_orbital_ind mol sph offs el
      = Except.ok ((orbital_ranges sph offs (element_index mol el)).flatten) := by
  obtain ⟨i0, rest, hm⟩ : ∃ i0 rest, element_index mol el = i0 :: rest := by
    cases h : element_index mol el with
    | nil => exact absurd h hne
    | cons a l => exact ⟨a, l, rfl⟩
  have hi0 : i0 ∈ element_index mol el := by
    rw [hm]; exact List.mem_cons_self _ _
  have hlenrow : ∀ r ∈ orbital_ranges sph offs (element_index mol el),
      r.length = sph.getD i0 0 := by
    intro r hr
    rcases List.mem_map.mp hr with ⟨j, hj, rfl⟩
    rw [List.length_map, List.length_range]
    exact huni j hj i0 hi0
  have hrangene : orbital_ranges sph offs (element_index mol el) ≠ [] := by
    rw [hm]
    simp [orbital_ranges]
  have hrl : (orbital_ranges sph offs (element_index mol el)).length
      = (element_index mol el).length := by
    simp [orbital_ranges]
  have key := np_reshape_flat_ok_of (orbital_ranges sph offs (element_index mol el))
    (sph.getD i0 0) hrangene hlenrow
  rw [hrl] at key
  unfold el_orbital_ind
  rw [hm] at key ⊢
  exact key

/-- C4 counterexample: matching is not case-insensitive on the atom-label
side.  For the atom list [CD] and the element label Cd, Python evaluates
the lowercased label cd against the unlowered atom label CD, so the code
matches no atom, while a genuinely case-insensitive substring match (the
element_index_ci reading of the claim) selects atom 0. -/
theorem C4_counterexample :
    element_index ["CD"] "Cd" = [] ∧
    element_index_ci ["CD"] "Cd" = [0] ∧
    element_index ["CD"] "Cd" ≠ element_index_ci ["CD"] "Cd" := by
  decide

/-- C4 (amended): the selector collects exactly the atom indices i, in
increasing atom-list order, such that the LOWERCASED element label is a
substring of atom label i as written (the atom label itself is not
case-folded); and whenever the flat orbital-index vector is built
successfully it is the concatenation, in atom-match order, of the
contiguous ranges [offset[i], offset[i] + sphericals[i]) of the matched
atoms. -/
theorem C4_element_selector (mol : List String) (sph offs : List Nat) (el : String)
    (flat : List Nat) (h : el_orbital_ind mol sph offs el = Except.ok flat) :
    (∀ i, i ∈ element_index mol el ↔
        i < mol.length ∧ elem_match el (mol.getD i noLabel) = true) ∧
    (element_index mol el).Pairwise (· < ·) ∧
    flat = ((element_index mol el).map (fun i =>
      (List.range (sph.getD i 0)).map (fun j => offs.getD i 0 + j))).flatten := by
  refine ⟨?_, ?_, ?_⟩
  · intro i
    simp [element_index, List.mem_filter, List.mem_range]
  · exact List.Pairwise.filter _ (List.pairwise_lt_range _)
  · simpa [orbital_ranges] using el_orbital_ind_ok_flatten mol sph offs el flat h

/-- Witness for C4 on a three-atom list where the element matches atoms 0
and 2, each contributing two orbitals. -/
theorem C4_element_selector_witness :
    (∀ i, i ∈ element_index ["cd", "h", "cd"] "cd" ↔
        i < (["cd", "h", "cd"] : List String).length ∧
        elem_match "cd" ((["cd", "h", "cd"] : List String).getD i noLabel) = true) ∧
    (element_index ["cd", "h", "cd"] "cd").Pairwise (· < ·) ∧
    [0, 1, 3, 4] = ((element_index ["cd", "h", "cd"] "cd").map (fun i =>
      (List.range (([2, 1, 2] : List Nat).getD i 0)).map
        (fun j => ([0, 2, 3, 5] : List Nat).getD i 0 + j))).flatten :=
  C4_element_selector ["cd", "h", "cd"] [2, 1, 2] [0, 2, 3, 5] "cd" [0, 1, 3, 4]
    (by decide)

/-- C5 counterexample: when no atom matches (element c against the single
atom h), the code fails while evaluating element_1_index[0] on the empty
match list, i.e. with an IndexError-class error, not with the
SelectionError the claim names. -/
theorem C5_counterexample :
    element_index ["h"] "c" = [] ∧
    el_orbital_ind ["h"] [1] [0, 1] "c" = Except.error CoopError.indexError ∧
    el_orbital_ind ["h"] [1] [0, 1] "c" ≠ Except.error CoopError.selectionError := by
  decide

/-- C5 (amended): whenever an element label matches zero atoms, the
orbital-index construction fails, but with an IndexError-class error
(indexing the empty match list at position 0), not with SelectionError. -/
theorem C5_no_match_fails (mol : List String) (sph offs : List Nat) (el : String)
    (h : element_index mol el = []) :
    el_orbital_ind mol sph offs el = Except.error CoopError.indexError := by
  unfold el_orbital_ind
  rw [h]

/-- Witness for C5 at a concrete non-matching label. -/
theorem C5_no_match_fails_witness :
    el_orbital_ind ["h"] [1] [0, 1] "c" = Except.error CoopError.indexError :=
  C5_no_match_fails ["h"] [1] [0, 1] "c" (by decide)

/-- C3: with mixed sphericals among the matched atoms (here sphericals
1 and 2 for the two atoms matching element c) the code never raises the
ConfigurationError the claim requires: numpy fails to materialise the
ragged list of per-atom index ranges and raises a ValueError-class error
instead. -/
theorem C3_mixed_sphericals_numpy_error :
    el_orbital_ind ["ca", "cb"] [1, 2] [0, 1, 3] "c"
      = Except.error CoopError.valueError ∧
    el_orbital_ind ["ca", "cb"] [1, 2] [0, 1, 3] "c"
      ≠ Except.error CoopError.configurationError := by
  decide

/-- C10: an atom whose label contains both element labels is collected
into both element index lists, its whole orbital range lands in both flat
orbital-index vectors, and the construction proceeds without error (no
disjointness check exists). -/
theorem C10_overlapping_matches (mol : List String) (sph offs : List Nat)
    (el1 el2 : String) (i : Nat) (hi : i < mol.length)
    (h1 : elem_match el1 (mol.getD i noLabel) = true)
    (h2 : elem_match el2 (mol.getD i noLabel) = true)
    (huni1 : ∀ j ∈ element_index mol el1, ∀ j2 ∈ element_index mol el1,
      sph.getD j 0 = sph.getD j2 0)
    (huni2 : ∀ j ∈ element_index mol el2, ∀ j2 ∈ element_index mol el2,
      sph.getD j 0 = sph.getD j2 0) :
    i ∈ element_index mol el1 ∧ i ∈ element_index mol el2 ∧
    ∃ o1 o2, el_orbital_ind mol sph offs el1 = Except.ok o1 ∧
      el_orbital_ind mol sph offs el2 = Except.ok o2 ∧
      ∀ j, j < sph.getD i 0 →
        (offs.getD i 0 + j) ∈ o1 ∧ (offs.getD i 0 + j) ∈ o2 := by
  have hm1 : i ∈ element_index mol el1 := by
    simp only [element_index, List.mem_filter, List.mem_range]
    exact ⟨hi, h1⟩
  have hm2 : i ∈ element_index mol el2 := by
    simp only [element_index, List.mem_filter, List.mem_range]
    exact ⟨hi, h2⟩
  have hne1 : element_index mol el1 ≠ [] := by
    intro hc; rw [hc] at hm1; exact absurd hm1 (List.not_mem_nil i)
  have hne2 : element_index mol el2 ≠ [] := by
    intro hc; rw [hc] at hm2; exact absurd hm2 (List.not_mem_nil i)
  have hrange : ∀ el, i ∈ element_index mol el → ∀ j, j < sph.getD i 0 →
      (offs.getD i 0 + j) ∈ (orbital_ranges sph offs (element_index mol el)).flatten := by
    intro el hmem j hj
    rw [List.mem_flatten]
    refine ⟨(List.range (sph.getD i 0)).map (fun j2 => offs.getD i 0 + j2), ?_, ?_⟩
    · exact List.mem_map.mpr ⟨i, hmem, rfl⟩
    · exact List.mem_map.mpr ⟨j, List.mem_range.mpr hj, rfl⟩
  refine ⟨hm1, hm2,
    (orbital_ranges sph offs (element_index mol el1)).flatten,
    (orbital_ranges sph offs (element_index mol el2)).flatten,
    el_orbital_ind_eq_flatten mol sph offs el1 hne1 huni1,
    el_orbital_ind_eq_flatten mol sph offs el2 hne2 huni2,
    fun j hj => ⟨hrange el1 hm1 j hj, hrange el2 hm2 j hj⟩⟩

/-- Witness for C10: the single atom cd matches both element labels c and
d, and both orbitals 0 and 1 of that atom land in both flat index
vectors. -/
theorem C10_overlapping_matches_witness :
    0 ∈ element_index ["cd"] "c" ∧ 0 ∈ element_index ["cd"] "d" ∧
    ∃ o1 o2, el_orbital_ind ["cd"] [2] [0, 2] "c" = Except.ok o1 ∧
      el_orbital_ind ["cd"] [2] [0, 2] "d" = Except.ok o2 ∧
      ∀ j, j < ([2] : List Nat).getD 0 0 →
        (([0, 2] : List Nat).getD 0 0 + j) ∈ o1 ∧
        (([0, 2] : List Nat).getD 0 0 + j) ∈ o2 :=
  C10_overlapping_matches ["cd"] [2] [0, 2] "c" "d" 0 (by decide) (by decide)
    (by decide) (by decide) (by decide)

/-! ### The COOP contraction -/

theorem row_core (x : ℚ) (v r : List ℚ) (h : r.length = v.length) :
    (List.zipWith (fun a b => a * b) (v.map (fun y => x * y)) r).sum
      = ∑ b ∈ Finset.range v.length, x * v.getD b 0 * r.getD b 0 := by
  induction v generalizing r with
  | nil =>
    have hr : r = [] := List.length_eq_zero.mp h
    subst hr
    simp
  | cons y v' ih =>
    cases r with
    | nil => simp at h
    | cons c r' =>
      have h' : r'.length = v'.length := by simpa using h
      simp only [List.map_cons, List.zipWith_cons_cons, List.sum_cons, List.length_cons]
      rw [Finset.sum_range_succ']
      simp only [List.getD_cons_succ, List.getD_cons_zero]
      rw [ih r' h']
      exact add_comm _ _

theorem coop_core (u v : List ℚ) (w : List (List ℚ)) (hw : w.length = u.length)
    (hr : ∀ r ∈ w, r.length = v.length) :
    np_sum_mat (elemwise_mul (tensordot0 u v) w)
      = ∑ a ∈ Finset.range u.length, ∑ b ∈ Finset.range v.length,
          u.getD a 0 * v.getD b 0 * (w.getD a []).getD b 0 := by
  induction u generalizing w with
  | nil =>
    have hw0 : w = [] := List.length_eq_zero.mp hw
    subst hw0
    simp [np_sum_mat, elemwise_mul, tensordot0]
  | cons x u' ih =>
    cases w with
    | nil => simp at hw
    | cons r w' =>
      have hw' : w'.length = u'.length := by simpa using hw
      have hrr : r.length = v.length := hr r (List.mem_cons_self _ _)
      have hr' : ∀ r2 ∈ w', r2.length = v.length :=
        fun r2 h2 => hr r2 (List.mem_cons_of_mem _ h2)
      simp only [tensordot0, List.map_cons, elemwise_mul, List.zipWith_cons_cons,
        np_sum_mat, List.sum_cons, List.length_cons]
      rw [Finset.sum_range_succ']
      simp only [List.getD_cons_succ, List.getD_cons_zero]
      rw [row_core x v r hrr]
      have ih' := ih w' hw' hr'
      simp only [tensordot0, elemwise_mul, np_sum_mat] at ih'
      rw [ih']
      exact add_comm _ _

theorem compute_coop_getD (M : Nat → Nat → ℚ) (w : List (List ℚ))
    (idx1 idx2 : List Nat) (nLevels : Nat) (hw : w.length = idx1.length)
    (hr : ∀ r ∈ w, r.length = idx2.length) (k : Nat) (hk : k < nLevels) :
    (compute_coop M w idx1 idx2 nLevels).getD k 0
      = ∑ a ∈ Finset.range idx1.length, ∑ b ∈ Finset.range idx2.length,
          M (idx1.getD a 0) k * M (idx2.getD b 0) k * (w.getD a []).getD b 0 := by
  have hk' : k < (List.range nLevels).length := by simpa using hk
  simp only [compute_coop]
  rw [getD_map_eq _ (List.range nLevels) k 0 0 hk', getD_range_eq nLevels k hk]
  simp only [coop_func]
  have hw2 : w.length = (gather (fun p => M p k) idx1).length := by
    simpa [gather] using hw
  have hr2 : ∀ r ∈ w, r.length = (gather (fun p => M p k) idx2).length := by
    intro r hrr
    simpa [gather] using hr r hrr
  rw [coop_core (gather (fun p => M p k) idx1) (gather (fun p => M p k) idx2) w hw2 hr2]
  simp only [gather, List.length_map]
  refine Finset.sum_congr rfl (fun a ha => Finset.sum_congr rfl (fun b hb => ?_))
  rw [getD_map_eq (fun p => M p k) idx1 a 0 0 (List.mem_range.mp ha),
    getD_map_eq (fun p => M p k) idx2 b 0 0 (List.mem_range.mp hb)]

/-- C1: for a coefficient matrix, a reduced overlap matrix of shape
(len(idx1), len(idx2)) and the two index sequences, compute_coop returns a
vector of length nLevels whose k-th entry is the full sum over (a, b) of
coefficients[idx1[a], k] * coefficients[idx2[b], k] * overlap_reduced[a, b],
ordered to match the coefficient-matrix columns. -/
theorem C1_compute_coop (M : Nat → Nat → ℚ) (w : List (List ℚ))
    (idx1 idx2 : List Nat) (nLevels : Nat) (hw : w.length = idx1.length)
    (hr : ∀ r ∈ w, r.length = idx2.length) :
    (compute_coop M w idx1 idx2 nLevels).length = nLevels ∧
    ∀ k, k < nLevels →
      (compute_coop M w idx1 idx2 nLevels).getD k 0
        = ∑ a ∈ Finset.range idx1.length, ∑ b ∈ Finset.range idx2.length,
            M (idx1.getD a 0) k * M (idx2.getD b 0) k * (w.getD a []).getD b 0 := by
  exact ⟨by simp [compute_coop], fun k hk => compute_coop_getD M w idx1 idx2 nLevels hw hr k hk⟩

/-- Witness for C1 on a 2 x 2 coefficient matrix, one orbital per element. -/
theorem C1_compute_coop_witness :
    (compute_coop (fun p k => ((p + k : Nat) : ℚ)) [[(1 : ℚ)]] [0] [1] 2).length = 2 ∧
    ∀ k, k < 2 →
      (compute_coop (fun p k => ((p + k : Nat) : ℚ)) [[(1 : ℚ)]] [0] [1] 2).getD k 0
        = ∑ a ∈ Finset.range ([0] : List Nat).length,
            ∑ b ∈ Finset.range ([1] : List Nat).length,
            ((([0] : List Nat).getD a 0 + k : Nat) : ℚ)
              * ((([1] : List Nat).getD b 0 + k : Nat) : ℚ)
              * (([[(1 : ℚ)]] : List (List ℚ)).getD a []).getD b 0 :=
  C1_compute_coop (fun p k => ((p + k : Nat) : ℚ)) [[(1 : ℚ)]] [0] [1] 2
    (by decide) (by decide)

/-! ### Transposition symmetry of the contraction -/

theorem transposeMat_length (m : List (List ℚ)) (n : Nat) :
    (transposeMat m n).length = n := by
  simp [transposeMat]

theorem transposeMat_rows (m : List (List ℚ)) (n : Nat) :
    ∀ r ∈ transposeMat m n, r.length = m.length := by
  intro r hr
  rcases List.mem_map.mp hr with ⟨b, _, rfl⟩
  simp

theorem transposeMat_getD (m : List (List ℚ)) (n : Nat) (b a : Nat)
    (hb : b < n) (ha : a < m.length) :
    ((transposeMat m n).getD b []).getD a 0 = (m.getD a []).getD b 0 := by
  simp only [transposeMat]
  rw [getD_map_eq (fun b2 => m.map (fun r => r.getD b2 0)) (List.range n) b [] 0
      (by simpa using hb),
    getD_range_eq n b hb,
    getD_map_eq (fun r => r.getD b 0) m a 0 [] ha]

/-- C8: swapping the roles of the two index sequences while transposing
the reduced overlap matrix yields exactly the same COOP vector (exact
rational arithmetic). -/
theorem C8_swap_transpose (M : Nat → Nat → ℚ) (w : List (List ℚ))
    (idx1 idx2 : List Nat) (nLevels : Nat) (hw : w.length = idx1.length)
    (hr : ∀ r ∈ w, r.length = idx2.length) :
    compute_coop M w idx1 idx2 nLevels
      = compute_coop M (transposeMat w idx2.length) idx2 idx1 nLevels := by
  have hwT : (transposeMat w idx2.length).length = idx2.length :=
    transposeMat_length w idx2.length
  have hrT : ∀ r ∈ transposeMat w idx2.length, r.length = idx1.length := by
    intro r hr2
    rw [transposeMat_rows w idx2.length r hr2, hw]
  have hlen : (compute_coop M w idx1 idx2 nLevels).length
      = (compute_coop M (transposeMat w idx2.length) idx2 idx1 nLevels).length := by
    simp [compute_coop]
  apply List.ext_getElem hlen
  intro k h1 h2
  have hk : k < nLevels := by simpa [compute_coop] using h1
  have e1 := compute_coop_getD M w idx1 idx2 nLevels hw hr k hk
  have e2 := compute_coop_getD M (transposeMat w idx2.length) idx2 idx1 nLevels hwT hrT k hk
  rw [List.getD_eq_getElem?_getD, List.getElem?_eq_getElem h1] at e1
  rw [List.getD_eq_getElem?_getD, List.getElem?_eq_getElem h2] at e2
  rw [Option.getD_some] at e1 e2
  rw [e1, e2, Finset.sum_comm]
  refine Finset.sum_congr rfl (fun b hb => Finset.sum_congr rfl (fun a ha => ?_))
  rw [transposeMat_getD w idx2.length b a (List.mem_range.mp hb)
    (hw ▸ List.mem_range.mp ha)]
  ring

/-- Witness for C8 at a concrete 1 x 2 reduced overlap matrix. -/
theorem C8_swap_transpose_witness :
    compute_coop (fun p k => ((p * 2 + k : Nat) : ℚ)) [[(1 : ℚ), (2 : ℚ)]] [0] [1, 2] 2
      = compute_coop (fun p k => ((p * 2 + k : Nat) : ℚ))
          (transposeMat [[(1 : ℚ), (2 : ℚ)]] ([1, 2] : List Nat).length) [1, 2] [0] 2 :=
  C8_swap_transpose (fun p k => ((p * 2 + k : Nat) : ℚ)) [[(1 : ℚ), (2 : ℚ)]] [0] [1, 2] 2
    (by decide) (by decide)

/-! ### Unit conversion -/

/-- C7: the conversion multiplies every element by the fixed
Hartree-to-eV constant: converting a raw energy of 1.0 yields the constant
itself, the constant is about 27.211386, and the conversion is linear
(convert(2x) = 2 convert(x), elementwise on the energy vector). -/
theorem C7_unit_conversion :
    convert_energies [1] = [h2ev] ∧
    (27.211386 : ℚ) < h2ev ∧ h2ev < (27.211387 : ℚ) ∧
    ∀ es : List ℚ, convert_energies (es.map (fun x => 2 * x))
      = (convert_energies es).map (fun x => 2 * x) := by
  refine ⟨?_, ?_, ?_, ?_⟩
  · simp [convert_energies]
  · norm_num [h2ev]
  · norm_num [h2ev]
  · intro es
    simp only [convert_energies, List.map_map]
    have hfun : ((fun e => e * h2ev) ∘ fun x => 2 * x)
        = ((fun x => 2 * x) ∘ fun e => e * h2ev) := by
      funext x
      simp [Function.comp]
      ring
    rw [hfun]

/-! ### The result table -/

theorem getD_zipWith_eq {α β γ : Type} (f : α → β → γ) (l1 : List α) (l2 : List β)
    (i : Nat) (d : γ) (d1 : α) (d2 : β) (h1 : i < l1.length) (h2 : i < l2.length) :
    (List.zipWith f l1 l2).getD i d = f (l1.getD i d1) (l2.getD i d2) := by
  have hz : i < (List.zipWith f l1 l2).length := by
    rw [List.length_zipWith]
    exact Nat.lt_min.mpr ⟨h1, h2⟩
  rw [List.getD_eq_getElem?_getD, List.getElem?_eq_getElem hz,
    List.getD_eq_getElem?_getD, List.getElem?_eq_getElem h1,
    List.getD_eq_getElem?_getD, List.getElem?_eq_getElem h2]
  simp [List.getElem_zipWith]

/-- C9: for an energy vector and a COOP vector of the same length, the
result emitter succeeds and returns a table with one row per energy level,
row i being (energies[i], coop[i]); rows keep the input order. -/
theorem C9_print_coop (energies coop : List ℚ) (h : energies.length = coop.length) :
    ∃ t, print_coop energies coop = Except.ok t ∧
      t.length = coop.length ∧
      ∀ i, i < coop.length →
        t.getD i (0, 0) = (energies.getD i 0, coop.getD i 0) := by
  have hm0 : (np_zeros_2col coop.length).length = coop.length := by
    simp [np_zeros_2col]
  have hs0 : set_col0 (np_zeros_2col coop.length) energies
      = Except.ok (List.zipWith (fun row x => (x, row.2)) (np_zeros_2col coop.length)
          energies) := by
    simp only [set_col0, hm0, h]
    rw [if_pos trivial]
  have hm1 : (List.zipWith (fun (row : ℚ × ℚ) x => (x, row.2)) (np_zeros_2col coop.length)
      energies).length = coop.length := by
    rw [List.length_zipWith, hm0, h, Nat.min_self]
  have hs1 : set_col1 (List.zipWith (fun (row : ℚ × ℚ) x => (x, row.2))
        (np_zeros_2col coop.length) energies) coop
      = Except.ok (List.zipWith (fun (row : ℚ × ℚ) x => (row.1, x))
          (List.zipWith (fun (row : ℚ × ℚ) x => (x, row.2)) (np_zeros_2col coop.length)
            energies) coop) := by
    simp only [set_col1, hm1]
    rw [if_pos trivial]
  refine ⟨List.zipWith (fun (row : ℚ × ℚ) x => (row.1, x))
      (List.zipWith (fun (row : ℚ × ℚ) x => (x, row.2)) (np_zeros_2col coop.length)
        energies) coop, ?_, ?_, ?_⟩
  · simp only [print_coop, hs0, Except.bind]
    exact hs1
  · rw [List.length_zipWith, hm1, Nat.min_self]
  · intro i hi
    have hiE : i < energies.length := by rw [h]; exact hi
    have hi0 : i < (np_zeros_2col coop.length).length := by rw [hm0]; exact hi
    have hi1 : i < (List.zipWith (fun (row : ℚ × ℚ) x => (x, row.2))
        (np_zeros_2col coop.length) energies).length := by rw [hm1]; exact hi
    rw [getD_zipWith_eq (fun (row : ℚ × ℚ) x => (row.1, x)) _ coop i (0, 0) (0, 0) 0 hi1 hi,
      getD_zipWith_eq (fun (row : ℚ × ℚ) x => (x, row.2)) _ energies i (0, 0) (0, 0) 0
        hi0 hiE]

/-- Witness for C9 at a concrete two-level system. -/
theorem C9_print_coop_witness :
    ∃ t, print_coop [(1 : ℚ), (2 : ℚ)] [(3 : ℚ), (4 : ℚ)] = Except.ok t ∧
      t.length = ([(3 : ℚ), (4 : ℚ)] : List ℚ).length ∧
      ∀ i, i < ([(3 : ℚ), (4 : ℚ)] : List ℚ).length →
        t.getD i (0, 0) = (([(1 : ℚ), (2 : ℚ)] : List ℚ).getD i 0,
          ([(3 : ℚ), (4 : ℚ)] : List ℚ).getD i 0) :=
  C9_print_coop [(1 : ℚ), (2 : ℚ)] [(3 : ℚ), (4 : ℚ)] (by decide)
